import Mathlib

/- Formal model of two glue layers of the qiskit-dynamics repository fragment:
   the global arraylias registry module (src/qiskit_dynamics/arraylias/alias.py)
   and the diffrax_solver adapter, whose observable behaviour is pinned down by
   src/test/dynamics/solvers/test_diffrax_DOP5.py and by the specification. -/

/- Part 1: the arraylias registry module.

   The file src/qiskit_dynamics/arraylias/alias.py executes, at import time:

     DYNAMICS_NUMPY_ALIAS = numpy_alias()
     DYNAMICS_SCIPY_ALIAS = scipy_alias()
     DYNAMICS_NUMPY_ALIAS.register_type(Array, "numpy")
     DYNAMICS_SCIPY_ALIAS.register_type(Array, "numpy")
     DYNAMICS_NUMPY = DYNAMICS_NUMPY_ALIAS()
     DYNAMICS_SCIPY = DYNAMICS_SCIPY_ALIAS()
     ArrayLike = Union[DYNAMICS_NUMPY_ALIAS.registered_types()]

   The arraylias library itself is external to the fragment, so its registry
   object is modelled from the spec. -/

/-- Concrete Python array types that can be registered with an alias registry.
`qiskitArray` stands for the `Array` class registered by alias.py; `ndarray`
stands for a default pre-registered type; `other n` stands for any further
type a later caller might register. -/
inductive PyType where
  | ndarray
  | qiskitArray
  | other (n : Nat)
deriving DecidableEq

/-- Modelled from the spec: the mutable dispatch-table state of one arraylias
alias object (the part visible in this fragment), namely the ordered list of
(concrete array type, backend name) registrations. Registration is push-only
and additive. -/
structure AliasRegistry where
  registered : List (PyType × String)
deriving DecidableEq

/-- Modelled from the spec: `register_type(type, backend_name)` associates a
concrete array type with a named backend inside a given dispatch table,
additively (push-only, last write wins on conflicts). -/
def register_type (r : AliasRegistry) (t : PyType) (backend : String) :
    AliasRegistry :=
  AliasRegistry.mk (r.registered ++ [(t, backend)])

/-- Modelled from the spec: `registered_types()` returns the registry's current
list of registered concrete array types. -/
def registered_types (r : AliasRegistry) : List PyType :=
  r.registered.map Prod.fst

/-- Modelled from the spec: the callable namespace object obtained by calling
an alias object (`DYNAMICS_NUMPY_ALIAS()`); `captured` records the registry
state at the moment the namespace is constructed. -/
structure DispatchNS where
  captured : AliasRegistry
deriving DecidableEq

/-- State of the module qiskit_dynamics.arraylias.alias after import: the two
alias registries, the two callable namespaces, and the module attribute
`ArrayLike`, which alias.py computes once, at line 37, as
`Union[DYNAMICS_NUMPY_ALIAS.registered_types()]`. The Union is kept as the
list of member types. -/
structure AliasModule where
  numpyAlias : AliasRegistry
  scipyAlias : AliasRegistry
  dynamicsNumpy : DispatchNS
  dynamicsScipy : DispatchNS
  arrayLike : List PyType
deriving DecidableEq

/-- Import-time execution of alias.py, line by line. The default registrations
performed inside the external constructors `numpy_alias()` / `scipy_alias()`
are not visible in the fragment, so they are taken as parameters. -/
def loadAliasModule (numpyDefaults scipyDefaults : List (PyType × String)) :
    AliasModule :=
  let npAlias := register_type (AliasRegistry.mk numpyDefaults)
      PyType.qiskitArray "numpy"
  let spAlias := register_type (AliasRegistry.mk scipyDefaults)
      PyType.qiskitArray "numpy"
  AliasModule.mk npAlias spAlias (DispatchNS.mk npAlias) (DispatchNS.mk spAlias)
    (registered_types npAlias)

/-- A later (post-import) `register_type` call on the module's NumPy-like
alias object: it mutates the registry object in place; the other module
attributes are plain Python bindings and are untouched. -/
def lateRegisterNumpy (m : AliasModule) (t : PyType) (backend : String) :
    AliasModule :=
  AliasModule.mk (register_type m.numpyAlias t backend) m.scipyAlias
    m.dynamicsNumpy m.dynamicsScipy m.arrayLike

/- Part 2: the diffrax_solver adapter.

   The implementation file of diffrax_solver is not part of the fragment; only
   its test is. The adapter is therefore modelled from the spec (section 4.2):
   validate the request, build the deduplicated save-at set containing the
   span endpoints and every requested time, sorted monotonically in the
   integration direction, invoke the external integrator once on that set, and
   reconcile its raw output back to the caller's original request order.

   The external adaptive integrator is out of scope for the spec; it is
   modelled as an oracle that, for each save-at time, materialises the exact
   solution state at that time (the tests compare against exact closed-form
   values up to tolerance). One point deviates from the spec's words and
   follows the in-repo test instead: with no t_eval, test_no_t_eval asserts
   that the result times are all close to the scalar t_span[-1], which a
   two-element [t0, t1] result would violate; so the model saves only the
   terminal time t1 in that case (the integrator's default save-at-t1
   behaviour). -/

/-- Errors of the solver adapter: an invalid evaluation request (detected
before the external integrator is invoked), or an internal reconciliation
mismatch (a requested time missing from the raw output; unreachable). -/
inductive SolverError where
  | invalidRequest (msg : String)
  | internalMismatch
deriving DecidableEq

/-- Result object of the adapter: parallel sequences of output times `t` and
output states `y`, one state per time. -/
structure OdeResult (S : Type) where
  t : List ℚ
  y : List S
deriving DecidableEq

/-- Test whether a time lies inside the closed span between t0 and t1. -/
def inSpan (t0 t1 t : ℚ) : Bool :=
  decide (min t0 t1 ≤ t) && decide (t ≤ max t0 t1)

/-- Save-at set handed to the external integrator: the union of the span
endpoints and the requested times, deduplicated, sorted ascending for a
forward span and descending for a backward span (the integrator mandates
monotonic save points matching its stepping direction). -/
def buildSaveAt (t0 t1 : ℚ) (te : List ℚ) : List ℚ :=
  let pts := (t0 :: t1 :: te).dedup
  if t0 < t1 then pts.insertionSort (· ≤ ·) else pts.insertionSort (· ≥ ·)

/-- Locate, among the integrator's raw output times `ts` with parallel states
`ys`, the state saved at exactly the time `t` (first exact match). -/
def lookupState {S : Type} : List ℚ → List S → ℚ → Option S
  | t' :: ts, y :: ys, t => if t' = t then some y else lookupState ts ys t
  | _, _, _ => none

/-- Reconcile the integrator's raw output against the caller's request: for
each requested time, in the caller's original order (duplicates included),
emit the state saved at that exact time; fail if any requested time is
missing from the raw output. -/
def reconcile {S : Type} (ts : List ℚ) (ys : List S) : List ℚ → Option (List S)
  | [] => some []
  | t :: rest =>
    match lookupState ts ys t, reconcile ts ys rest with
    | some y, some tail => some (y :: tail)
    | _, _ => none

/-- Core of the adapter, parametric in the external integrator: `integrate`
receives the save-at times and returns the raw output times with their
states. A degenerate span or an out-of-range requested time is rejected
before `integrate` is consulted. With no t_eval only the terminal time is
saved; with t_eval the save-at set is built, the integrator invoked, and the
output reconciled to the caller's order. -/
def diffrax_solver_core {S : Type} (integrate : List ℚ → List ℚ × List S)
    (t0 t1 : ℚ) (t_eval : Option (List ℚ)) : Except SolverError (OdeResult S) :=
  if t0 = t1 then
    Except.error (SolverError.invalidRequest "degenerate time span")
  else
    match t_eval with
    | none =>
      let out := integrate [t1]
      Except.ok (OdeResult.mk out.1 out.2)
    | some te =>
      if te.all (inSpan t0 t1) then
        let out := integrate (buildSaveAt t0 t1 te)
        match reconcile out.1 out.2 te with
        | some ys => Except.ok (OdeResult.mk te ys)
        | none => Except.error SolverError.internalMismatch
      else
        Except.error
          (SolverError.invalidRequest "t_eval time outside the time span")

/-- Modelled from the spec: diffrax_solver with the external adaptive
integrator abstracted as the exact-solution oracle `sol` (it materialises
`sol t` at each save-at time `t`). The initial state is `sol t0`, the
terminal state `sol t1`. -/
def diffrax_solver {S : Type} (sol : ℚ → S) (t0 t1 : ℚ)
    (t_eval : Option (List ℚ)) : Except SolverError (OdeResult S) :=
  diffrax_solver_core (fun ts => (ts, ts.map sol)) t0 t1 t_eval

/-- Right-hand side used by every test in test_diffrax_DOP5.py, as a scalar:
`cond(t < 1.0, lambda s: s, lambda s: s**2, jnp.array([t]))`, i.e. the
identity field applied to t for t < 1, and the squaring field applied to t
for t >= 1. -/
def simple_rhs (t : ℚ) (_y : ℚ) : ℚ :=
  if t < 1 then t else t ^ 2

/-- Exact solution of y' = simple_rhs(t, y) with y(0) = 1, whose values the
tests' expected_y arrays spell out: 1 + t^2/2 below the breakpoint and
1 + 1/2 + (t^3 - 1)/3 above it (the two pieces agree at t = 1). -/
def solEx (t : ℚ) : ℚ :=
  if t < 1 then 1 + t ^ 2 / 2 else 1 + 1 / 2 + (t ^ 3 - 1) / 3

/-- NumPy-style broadcast allclose of a list of scalars against one scalar
with absolute tolerance `atol`: every element is within `atol` of the scalar.
This is the shape of the assertion `assertAllClose(results.t, t_span[-1])` in
test_no_t_eval. -/
def allCloseScalar (xs : List ℚ) (c atol : ℚ) : Bool :=
  xs.all fun x => decide (|x - c| ≤ atol)

/-- Concrete post-import scenario for the ArrayLike snapshot question: import
the module with ndarray as the only default registration, then register one
further type with the NumPy-like alias afterwards. -/
def staleExample : AliasModule :=
  lateRegisterNumpy
    (loadAliasModule [(PyType.ndarray, "numpy")] [(PyType.ndarray, "numpy")])
    (PyType.other 0) "tensorflow"

/- Helper lemmas about the adapter. -/

/-- Looking a time up in the exact-solution output of the integrator returns
the exact-solution state, whenever the time was among the save-at points. -/
theorem lookupState_map {S : Type} (sol : ℚ → S) :
    ∀ (ts : List ℚ) (t : ℚ), t ∈ ts →
      lookupState ts (ts.map sol) t = some (sol t) := by
  intro ts
  induction ts with
  | nil => intro t ht; cases ht
  | cons a rest ih =>
    intro t ht
    simp only [List.map, lookupState]
    by_cases ha : a = t
    · rw [if_pos ha, ha]
    · rw [if_neg ha]
      rcases List.mem_cons.mp ht with h | h
      · exact absurd h.symm ha
      · exact ih t h

/-- Reconciliation against the exact-solution output succeeds and returns the
exact-solution state at each requested time, in request order, whenever every
requested time is among the raw output times. -/
theorem reconcile_map {S : Type} (sol : ℚ → S) (ts : List ℚ) :
    ∀ te : List ℚ, (∀ t ∈ te, t ∈ ts) →
      reconcile ts (ts.map sol) te = some (te.map sol) := by
  intro te
  induction te with
  | nil => intro _; rfl
  | cons a rest ih =>
    intro h
    have ha : a ∈ ts := h a (List.mem_cons_self a rest)
    have hrest : ∀ t ∈ rest, t ∈ ts := fun t ht => h t (List.mem_cons_of_mem a ht)
    simp only [reconcile, lookupState_map sol ts a ha, ih hrest, List.map]

/-- A successful reconciliation yields exactly one state per requested time. -/
theorem reconcile_length {S : Type} (ts : List ℚ) (ys : List S) :
    ∀ (te : List ℚ) (out : List S), reconcile ts ys te = some out →
      out.length = te.length := by
  intro te
  induction te with
  | nil =>
    intro out h
    simp only [reconcile, Option.some.injEq] at h
    rw [← h]
    rfl
  | cons a rest ih =>
    intro out h
    simp only [reconcile] at h
    cases hl : lookupState ts ys a with
    | none => rw [hl] at h; cases h
    | some y =>
      rw [hl] at h
      cases hr : reconcile ts ys rest with
      | none => rw [hr] at h; cases h
      | some tail =>
        rw [hr] at h
        cases h
        simp only [List.length_cons, ih tail hr]

/-- Every endpoint and every requested time is in the save-at set. -/
theorem mem_buildSaveAt (t0 t1 t : ℚ) (te : List ℚ)
    (ht : t ∈ t0 :: t1 :: te) : t ∈ buildSaveAt t0 t1 te := by
  have hd : t ∈ (t0 :: t1 :: te).dedup := List.mem_dedup.mpr ht
  unfold buildSaveAt
  by_cases h : t0 < t1
  · rw [if_pos h]
    exact (List.mem_insertionSort _).mpr hd
  · rw [if_neg h]
    exact (List.mem_insertionSort _).mpr hd

/-- The save-at set is duplicate-free: requested times that repeat, or that
coincide with an endpoint, reduce to a single save-at point. -/
theorem nodup_buildSaveAt (t0 t1 : ℚ) (te : List ℚ) :
    (buildSaveAt t0 t1 te).Nodup := by
  have hd : ((t0 :: t1 :: te).dedup).Nodup := List.nodup_dedup _
  unfold buildSaveAt
  by_cases h : t0 < t1
  · rw [if_pos h]
    exact ((List.perm_insertionSort _ _).nodup_iff).mpr hd
  · rw [if_neg h]
    exact ((List.perm_insertionSort _ _).nodup_iff).mpr hd

/-- Boolean span membership agrees with its propositional reading. -/
theorem inSpan_iff (t0 t1 t : ℚ) :
    inSpan t0 t1 t = true ↔ min t0 t1 ≤ t ∧ t ≤ max t0 t1 := by
  simp [inSpan]

/-- Closed form of the adapter on a valid request: the output times are the
requested times in the caller's original order, and each state is the
exact-solution state at its time. -/
theorem diffrax_solver_eval {S : Type} (sol : ℚ → S) (t0 t1 : ℚ)
    (te : List ℚ) (hne : t0 ≠ t1)
    (hin : ∀ t ∈ te, min t0 t1 ≤ t ∧ t ≤ max t0 t1) :
    diffrax_solver sol t0 t1 (some te) =
      Except.ok (OdeResult.mk te (te.map sol)) := by
  have hall : te.all (inSpan t0 t1) = true :=
    List.all_eq_true.mpr fun t ht => (inSpan_iff t0 t1 t).mpr (hin t ht)
  have hsub : ∀ t ∈ te, t ∈ buildSaveAt t0 t1 te := fun t ht =>
    mem_buildSaveAt t0 t1 t te (List.mem_cons_of_mem t0 (List.mem_cons_of_mem t1 ht))
  unfold diffrax_solver diffrax_solver_core
  rw [if_neg hne]
  simp only [hall, if_true, reconcile_map sol (buildSaveAt t0 t1 te) te hsub]

/-- Zipping the requested times with their exact-solution states pairs every
time with the solution at that very time. -/
theorem zip_map_self {S : Type} (sol : ℚ → S) :
    ∀ te : List ℚ, te.zip (te.map sol) = te.map fun t => (t, sol t) := by
  intro te
  induction te with
  | nil => rfl
  | cons a rest ih => simp only [List.map, List.zip_cons_cons, ih]

/-- Closed form of the adapter when no t_eval is supplied: the single
terminal save point and its state. -/
theorem diffrax_solver_none_eval {S : Type} (sol : ℚ → S) (t0 t1 : ℚ)
    (hne : t0 ≠ t1) :
    diffrax_solver sol t0 t1 none =
      Except.ok (OdeResult.mk [t1] [sol t1]) := by
  unfold diffrax_solver diffrax_solver_core
  rw [if_neg hne]
  rfl

/-- Closed form of the adapter when some requested time falls outside the
span: the invalid-request error, with no integrator involvement. -/
theorem diffrax_solver_out_of_range {S : Type} (sol : ℚ → S) (t0 t1 : ℚ)
    (te : List ℚ) (hne : t0 ≠ t1)
    (hall : te.all (inSpan t0 t1) = false) :
    diffrax_solver sol t0 t1 (some te) =
      Except.error
        (SolverError.invalidRequest "t_eval time outside the time span") := by
  unfold diffrax_solver diffrax_solver_core
  rw [if_neg hne]
  simp only [hall, Bool.false_eq_true, if_false]

/- Claim theorems. -/

/-- Claim C1 counterexample: with span (0, 2), t_eval absent and the identity
solution oracle, the adapter returns the single terminal time [2] with its
state, not the two-element sequence [0, 2]; moreover a [0, 2] time sequence
would fail the broadcast assertion assertAllClose(results.t, t_span[-1]) of
test_no_t_eval even at absolute tolerance 1, while the returned [2]
satisfies it. -/
theorem diffrax_no_t_eval_cex :
    diffrax_solver (fun t : ℚ => t) 0 2 none =
        Except.ok (OdeResult.mk [2] [2]) ∧
      ([(2:ℚ)] ≠ [0, 2]) ∧
      allCloseScalar [0, 2] 2 1 = false ∧
      allCloseScalar [2] 2 1 = true := by
  refine ⟨by rfl, by decide, ?_, ?_⟩ <;> norm_num [allCloseScalar]

/-- Claim C1 (amended): for every span with t0 ≠ t1 and t_eval absent, the
result times equal exactly the one-element sequence [t1] — the terminal
endpoint only, as test_no_t_eval asserts — with the corresponding terminal
state. -/
theorem diffrax_no_t_eval_terminal {S : Type} (sol : ℚ → S) (t0 t1 : ℚ)
    (hne : t0 ≠ t1) :
    diffrax_solver sol t0 t1 none =
      Except.ok (OdeResult.mk [t1] [sol t1]) :=
  diffrax_solver_none_eval sol t0 t1 hne

/-- Witness for the amended claim C1 at the concrete span (1, 3). -/
theorem diffrax_no_t_eval_terminal_witness :
    diffrax_solver (fun t : ℚ => t) 1 3 none =
      Except.ok (OdeResult.mk [3] [3]) :=
  diffrax_no_t_eval_terminal (fun t : ℚ => t) 1 3 (by decide)

/-- Claim C2: for every span with t0 ≠ t1 and every t_eval sequence lying
inside [min(t0,t1), max(t0,t1)], the result times equal t_eval exactly,
element for element in the caller's original order — forward and backward
spans alike — with the solution state at each requested time. -/
theorem diffrax_t_eval_order {S : Type} (sol : ℚ → S) (t0 t1 : ℚ)
    (te : List ℚ) (hne : t0 ≠ t1)
    (hin : ∀ t ∈ te, min t0 t1 ≤ t ∧ t ≤ max t0 t1) :
    diffrax_solver sol t0 t1 (some te) =
      Except.ok (OdeResult.mk te (te.map sol)) :=
  diffrax_solver_eval sol t0 t1 te hne hin

/-- Witness for claim C2: a forward span (0, 3) and a backward span (3, 0),
each with an interior t_eval in the caller's order. -/
theorem diffrax_t_eval_order_witness :
    (diffrax_solver (fun t : ℚ => t) 0 3 (some [1, 2]) =
        Except.ok (OdeResult.mk [1, 2] [1, 2])) ∧
      diffrax_solver (fun t : ℚ => t) 3 0 (some [2, 1]) =
        Except.ok (OdeResult.mk [2, 1] [2, 1]) :=
  ⟨diffrax_t_eval_order (fun t : ℚ => t) 0 3 [1, 2] (by decide) (by decide),
    diffrax_t_eval_order (fun t : ℚ => t) 3 0 [2, 1] (by decide) (by decide)⟩

/-- Claim C3 counterexample: re-reading the module attribute ArrayLike after
a later register_type call does not reflect that registration. In the
concrete staleExample scenario the newly registered type is reported by
registered_types() but is absent from ArrayLike, so the attribute is not
recomputed from the registry's current type list on each read. -/
theorem arrayLike_stale_cex :
    staleExample.arrayLike ≠ registered_types staleExample.numpyAlias ∧
      PyType.other 0 ∈ registered_types staleExample.numpyAlias ∧
      PyType.other 0 ∉ staleExample.arrayLike := by
  refine ⟨?_, by decide, by decide⟩
  decide

/-- Claim C3 (amended): ArrayLike equals the set of registered concrete array
types as snapshotted when alias.py computes the attribute at import time; a
later register_type call grows the registry's type list, but a re-read of the
module attribute still yields the import-time snapshot, unchanged. -/
theorem arrayLike_snapshot (nd sd : List (PyType × String)) (t : PyType)
    (b : String) :
    (loadAliasModule nd sd).arrayLike =
        registered_types (loadAliasModule nd sd).numpyAlias ∧
      (lateRegisterNumpy (loadAliasModule nd sd) t b).arrayLike =
        (loadAliasModule nd sd).arrayLike :=
  ⟨rfl, rfl⟩

/-- Claim C10: after import of the alias module, the Array type is registered
in both the NumPy-like and the SciPy-like dispatch table under the same
backend name "numpy", and both registrations are already present in the
registry states from which the callable namespaces DYNAMICS_NUMPY and
DYNAMICS_SCIPY are constructed. -/
theorem alias_module_consistent (nd sd : List (PyType × String)) :
    ((PyType.qiskitArray, "numpy") ∈
        (loadAliasModule nd sd).numpyAlias.registered) ∧
      ((PyType.qiskitArray, "numpy") ∈
        (loadAliasModule nd sd).scipyAlias.registered) ∧
      (loadAliasModule nd sd).dynamicsNumpy.captured =
        (loadAliasModule nd sd).numpyAlias ∧
      (loadAliasModule nd sd).dynamicsScipy.captured =
        (loadAliasModule nd sd).scipyAlias := by
  refine ⟨?_, ?_, rfl, rfl⟩ <;> simp [loadAliasModule, register_type]

/-- Claim C4: a degenerate span (t0 = t1) or a requested evaluation time
outside [min(t0,t1), max(t0,t1)] makes the call fail with an invalid-request
error, and the outcome is identical for every external integrator: the error
is raised before the integrator is consulted, and out-of-range times are
never clamped or extrapolated into a successful result. -/
theorem diffrax_invalid_request {S : Type}
    (integrate integrate' : List ℚ → List ℚ × List S) (t0 t1 : ℚ)
    (t_eval : Option (List ℚ))
    (hbad : t0 = t1 ∨ ∃ te, t_eval = some te ∧
      ∃ t ∈ te, ¬(min t0 t1 ≤ t ∧ t ≤ max t0 t1)) :
    (∃ msg, diffrax_solver_core integrate t0 t1 t_eval =
        Except.error (SolverError.invalidRequest msg)) ∧
      diffrax_solver_core integrate t0 t1 t_eval =
        diffrax_solver_core integrate' t0 t1 t_eval := by
  by_cases hne : t0 = t1
  · unfold diffrax_solver_core
    rw [if_pos hne, if_pos hne]
    exact ⟨⟨"degenerate time span", rfl⟩, rfl⟩
  · rcases hbad with h | ⟨te, hte, t, htmem, htout⟩
    · exact absurd h hne
    · subst hte
      have hall : te.all (inSpan t0 t1) = false := by
        refine Bool.eq_false_iff.mpr fun hcontra => htout ?_
        exact (inSpan_iff t0 t1 t).mp (List.all_eq_true.mp hcontra t htmem)
      have key : ∀ integ : List ℚ → List ℚ × List S,
          diffrax_solver_core integ t0 t1 (some te) =
            Except.error
              (SolverError.invalidRequest "t_eval time outside the time span") := by
        intro integ
        unfold diffrax_solver_core
        rw [if_neg hne]
        simp only [hall, Bool.false_eq_true, if_false]
      exact ⟨⟨"t_eval time outside the time span", key integrate⟩,
        (key integrate).trans (key integrate').symm⟩

/-- Witness for claim C4: span (0, 2) with the out-of-range request [3], for
two syntactically different integrators. -/
theorem diffrax_invalid_request_witness :
    (∃ msg, diffrax_solver_core (fun ts : List ℚ => (ts, ts)) 0 2 (some [3]) =
        Except.error (SolverError.invalidRequest msg)) ∧
      diffrax_solver_core (fun ts : List ℚ => (ts, ts)) 0 2 (some [3]) =
        diffrax_solver_core (fun ts : List ℚ => (ts, [])) 0 2 (some [3]) :=
  diffrax_invalid_request (fun ts : List ℚ => (ts, ts))
    (fun ts : List ℚ => (ts, [])) 0 2 (some [3])
    (Or.inr ⟨[3], rfl, 3, by decide, by decide⟩)

/-- Claim C5: with the piecewise test field of test_diffrax_DOP5.py (the
identity branch applied for t below 1, the squaring branch from 1 on), span
[0, 2], initial state 1, and t_eval = [1.0, 1.5, 1.7, 2.0], the solver
returns exactly the states
[1.5, 1.5 + (1.5^3 - 1)/3, 1.5 + (1.7^3 - 1)/3, 1.5 + (2^3 - 1)/3] at those
times; the equality is exact in ℚ, hence within any configured tolerance. -/
theorem diffrax_piecewise_scenario :
    solEx 0 = 1 ∧
      diffrax_solver solEx 0 2 (some [1, 3/2, 17/10, 2]) =
        Except.ok (OdeResult.mk [1, 3/2, 17/10, 2]
          [3/2, 3/2 + ((3/2)^3 - 1)/3, 3/2 + ((17/10)^3 - 1)/3,
            3/2 + (2^3 - 1)/3]) := by
  constructor
  · norm_num [solEx]
  · rw [diffrax_solver_eval solEx 0 2 [1, 3/2, 17/10, 2] (by norm_num)
      (by intro t ht; fin_cases ht <;> constructor <;> norm_num)]
    norm_num [solEx]

/-- Claim C6: reversing the caller's t_eval reverses the result's time and
state sequences exactly — the reversed request returns the reversed time
list paired with the reversed state list of the original request — so only
the presentation order changes, with identical state values at matching
times. -/
theorem diffrax_t_eval_reverse {S : Type} (sol : ℚ → S) (t0 t1 : ℚ)
    (te : List ℚ) (hne : t0 ≠ t1)
    (hin : ∀ t ∈ te, min t0 t1 ≤ t ∧ t ≤ max t0 t1) :
    (diffrax_solver sol t0 t1 (some te.reverse) =
        Except.ok (OdeResult.mk te.reverse ((te.map sol).reverse))) ∧
      diffrax_solver sol t0 t1 (some te) =
        Except.ok (OdeResult.mk te (te.map sol)) := by
  have hin' : ∀ t ∈ te.reverse, min t0 t1 ≤ t ∧ t ≤ max t0 t1 := fun t ht =>
    hin t (List.mem_reverse.mp ht)
  refine ⟨?_, diffrax_solver_eval sol t0 t1 te hne hin⟩
  rw [diffrax_solver_eval sol t0 t1 te.reverse hne hin', List.map_reverse]

/-- Witness for claim C6: span (0, 3) with request [1, 2] and its reverse. -/
theorem diffrax_t_eval_reverse_witness :
    (diffrax_solver (fun t : ℚ => t) 0 3 (some [2, 1]) =
        Except.ok (OdeResult.mk [2, 1] [2, 1])) ∧
      diffrax_solver (fun t : ℚ => t) 0 3 (some [1, 2]) =
        Except.ok (OdeResult.mk [1, 2] [1, 2]) :=
  diffrax_t_eval_reverse (fun t : ℚ => t) 0 3 [1, 2] (by decide) (by decide)

/-- Claim C7: a requested evaluation time equal to a span endpoint resolves
to that endpoint's state from the solution oracle — sol t0 is the initial
state, sol t1 the terminal state — appearing in the output exactly once when
requested once (no omission, no double-counting), and every output pair at
that time carries exactly that state (no interpolated or re-derived
value). -/
theorem diffrax_endpoint_request {S : Type} (sol : ℚ → S) (t0 t1 e : ℚ)
    (te : List ℚ) (hne : t0 ≠ t1)
    (hin : ∀ t ∈ te, min t0 t1 ≤ t ∧ t ≤ max t0 t1)
    (_he : e = t0 ∨ e = t1) (hcount : te.count e = 1) :
    ∃ r : OdeResult S, diffrax_solver sol t0 t1 (some te) = Except.ok r ∧
      r.t.count e = 1 ∧
      ∀ p ∈ r.t.zip r.y, p.1 = e → p.2 = sol e := by
  refine ⟨OdeResult.mk te (te.map sol),
    diffrax_solver_eval sol t0 t1 te hne hin, hcount, ?_⟩
  intro p hp hpe
  rw [zip_map_self sol te] at hp
  rcases List.mem_map.mp hp with ⟨t, _, hteq⟩
  rw [← hteq] at hpe ⊢
  exact congrArg sol hpe

/-- Witness for claim C7: span (0, 2) and request [1, 2], whose second entry
equals the terminal endpoint. -/
theorem diffrax_endpoint_request_witness :
    ∃ r : OdeResult ℚ, diffrax_solver (fun t : ℚ => t) 0 2 (some [1, 2]) =
        Except.ok r ∧
      r.t.count 2 = 1 ∧
      ∀ p ∈ r.t.zip r.y, p.1 = 2 → p.2 = 2 :=
  diffrax_endpoint_request (fun t : ℚ => t) 0 2 2 [1, 2] (by decide)
    (by decide) (Or.inr rfl) (by decide)

/-- Claim C8: duplicate requested times reduce to a single save-at point for
the external integrator — the save-at set is duplicate-free — yet each
occurrence in the caller's request produces exactly one output entry (the
output times repeat every time exactly as often as the request does), and
every output pair carries the solution state of its own time, so duplicate
occurrences resolve independently to the same state. -/
theorem diffrax_duplicate_request {S : Type} (sol : ℚ → S) (t0 t1 : ℚ)
    (te : List ℚ) (hne : t0 ≠ t1)
    (hin : ∀ t ∈ te, min t0 t1 ≤ t ∧ t ≤ max t0 t1) :
    (buildSaveAt t0 t1 te).Nodup ∧
      ∃ r : OdeResult S, diffrax_solver sol t0 t1 (some te) = Except.ok r ∧
        (∀ u : ℚ, r.t.count u = te.count u) ∧
        ∀ p ∈ r.t.zip r.y, p.2 = sol p.1 := by
  refine ⟨nodup_buildSaveAt t0 t1 te, OdeResult.mk te (te.map sol),
    diffrax_solver_eval sol t0 t1 te hne hin, fun u => rfl, ?_⟩
  intro p hp
  rw [zip_map_self sol te] at hp
  rcases List.mem_map.mp hp with ⟨t, _, hteq⟩
  rw [← hteq]

/-- Witness for claim C8: span (0, 3) with the duplicated request
[1, 1, 2]. -/
theorem diffrax_duplicate_request_witness :
    (buildSaveAt 0 3 [1, 1, 2]).Nodup ∧
      ∃ r : OdeResult ℚ, diffrax_solver (fun t : ℚ => t) 0 3
          (some [1, 1, 2]) = Except.ok r ∧
        (∀ u : ℚ, r.t.count u = [(1:ℚ), 1, 2].count u) ∧
        ∀ p ∈ r.t.zip r.y, p.2 = p.1 :=
  diffrax_duplicate_request (fun t : ℚ => t) 0 3 [1, 1, 2] (by decide)
    (by decide)

/-- Claim C9: every successful result of the adapter has exactly one state
per output time: the time and state sequences have equal length. -/
theorem diffrax_result_parallel {S : Type} (sol : ℚ → S) (t0 t1 : ℚ)
    (t_eval : Option (List ℚ)) (r : OdeResult S)
    (h : diffrax_solver sol t0 t1 t_eval = Except.ok r) :
    r.t.length = r.y.length := by
  by_cases hne : t0 = t1
  · unfold diffrax_solver diffrax_solver_core at h
    rw [if_pos hne] at h
    cases h
  · cases t_eval with
    | none =>
      rw [diffrax_solver_none_eval sol t0 t1 hne] at h
      simp only [Except.ok.injEq] at h
      rw [← h]
      rfl
    | some te =>
      by_cases hall : te.all (inSpan t0 t1) = true
      · have hin : ∀ t ∈ te, min t0 t1 ≤ t ∧ t ≤ max t0 t1 := fun t ht =>
          (inSpan_iff t0 t1 t).mp (List.all_eq_true.mp hall t ht)
        rw [diffrax_solver_eval sol t0 t1 te hne hin] at h
        simp only [Except.ok.injEq] at h
        rw [← h]
        simp only [List.length_map]
      · rw [diffrax_solver_out_of_range sol t0 t1 te hne
          (Bool.eq_false_iff.mpr hall)] at h
        cases h

/-- Witness for claim C9 at the concrete successful call of span (0, 2) with
no t_eval. -/
theorem diffrax_result_parallel_witness :
    (OdeResult.mk [(2:ℚ)] [(2:ℚ)]).t.length =
      (OdeResult.mk [(2:ℚ)] [(2:ℚ)]).y.length :=
  diffrax_result_parallel (fun t : ℚ => t) 0 2 none
    (OdeResult.mk [2] [2]) (by rfl)
